import Mathlib

/-!
Verification of the optimizer core (`optim`): a shallow embedding of
`src/dif_sgd.py`, `src/adam.py` and `src/utils.py`.

Conventions of the embedding:
* Python floats are modelled as `ℚ` (the claims are about exact arithmetic);
  tensors are modelled per element, so a tensor is a single rational payload
  together with bookkeeping flags.
* A tensor value carries an object identity `oid` (Python object id, used for
  aliasing and identity-based set membership), its numeric payload `val`,
  `hist` (whether the value has recorded derivation history, i.e. `is_leaf`
  is `!hist`), `reqGrad` (`requires_grad`) and `retains` (`retain_grad` was
  called).
* Python dicts keyed by hashable keys are association lists with
  lookup/replace helpers (`alook`, `aput`).
* A hyperparameter that may be "a constant or a callable of the step count"
  is the tagged union `HVal`; `callable(v)` is the `sched` case.
* Fallible code (assertion failures, `KeyError`, unsupported input) returns
  `Option`/`Except`.
-/

namespace Optim

/-- A hyperparameter value: either a constant or a schedule, i.e. a Python
callable of the step number. -/
inductive HVal (α : Type) where
  | const : α → HVal α
  | sched : (ℕ → α) → HVal α

/-- HyperparameterResolver: `DifferentiableSGD._get` (src/dif_sgd.py lines
29-30) and `Adam.get` (src/adam.py lines 48-49):
`return v(self.step_number) if callable(v) else v`. -/
def resolve {α : Type} (v : HVal α) (step : ℕ) : α :=
  match v with
  | .sched f => f step
  | .const c => c

/-- Python `(not callable(v)) and v < 0.0`. -/
def hvLt0 (v : HVal ℚ) : Bool :=
  match v with
  | .const q => decide (q < 0)
  | .sched _ => false

/-- Python `(not callable(nesterov)) and nesterov`. -/
def nestBool (v : HVal Bool) : Bool :=
  match v with
  | .const b => b
  | .sched _ => false

/-- Python `(not callable(momentum)) and momentum <= 0`. -/
def momLe0 (v : HVal ℚ) : Bool :=
  match v with
  | .const q => decide (q ≤ 0)
  | .sched _ => false

/-- Python `dampening != 0`: a constant compares numerically, while a
callable (function object) always compares unequal to `0`. -/
def dampNe0 (v : HVal ℚ) : Bool :=
  match v with
  | .const q => decide (q ≠ 0)
  | .sched _ => true

/-- The `lr` argument of `DifferentiableSGD.__init__` may also be the
`required` sentinel (src/utils.py line 8). -/
inductive LrV where
  | isRequired : LrV
  | val : HVal ℚ → LrV

/-- Python `lr is not required and (not callable(lr)) and lr < 0.0`. -/
def lrBad (lr : LrV) : Bool :=
  match lr with
  | .isRequired => false
  | .val v => hvLt0 v

/-- Validation performed by `DifferentiableSGD.__init__` (src/dif_sgd.py
lines 9-17), in source order. -/
def sgdValidate (lr : LrV) (momentum dampening weight_decay : HVal ℚ)
    (nesterov : HVal Bool) : Except String Unit :=
  if lrBad lr then .error "Invalid learning rate"
  else if hvLt0 momentum then .error "Invalid momentum value"
  else if hvLt0 weight_decay then .error "Invalid weight_decay value"
  else if nestBool nesterov && (momLe0 momentum || dampNe0 dampening) then
    .error "Nesterov momentum requires a momentum and zero dampening"
  else .ok ()

/-- Python `(not callable(v)) and (not 0.0 <= v)` (Adam lr/eps checks). -/
def hvNotGe0 (v : HVal ℚ) : Bool :=
  match v with
  | .const q => decide (¬ 0 ≤ q)
  | .sched _ => false

/-- Python `(not callable(b)) and (not 0.0 <= b < 1.0)` (Adam beta checks). -/
def betaBad (v : HVal ℚ) : Bool :=
  match v with
  | .const q => decide (¬ (0 ≤ q ∧ q < 1))
  | .sched _ => false

/-- Validation performed by `Adam.__init__` (src/adam.py lines 31-38), in
source order.  Note that `weight_decay` is accepted without any check. -/
def adamValidate (lr eps b1 b2 weight_decay : HVal ℚ) : Except String Unit :=
  if hvNotGe0 lr then .error "Invalid learning rate"
  else if hvNotGe0 eps then .error "Invalid epsilon value"
  else if betaBad b1 then .error "Invalid beta parameter at index 0"
  else if betaBad b2 then .error "Invalid beta parameter at index 1"
  else .ok ()

/-- Does an `Except` carry an error? -/
def isErr {ε α : Type} (e : Except ε α) : Bool :=
  match e with
  | .error _ => true
  | .ok _ => false

/-- A member of a parameter group, as used in the duplicate check of
`add_param_group` (src/utils.py lines 94-99): the Python set holds
`(name, tensor)` tuples, whose hash/equality for the tensor component is
object identity, so a member is a (name, object id) pair. -/
abbrev PMember : Type := String × ℕ

/-- The message of the duplicate-parameter `ValueError`. -/
def dupMsg : String := "some parameters appear in more than one parameter group"

/-- Python: `param_set` is the union of the members of all registered groups;
the check is `not param_set.isdisjoint(set(param_group['params'][1]))`. -/
def memberDup (groups : List (List PMember)) (newG : List PMember) : Bool :=
  newG.any fun pr => groups.any fun g => g.any fun q => decide (q = pr)

/-- The membership bookkeeping of `DifferentiableOptimizer.add_param_group`
(src/utils.py lines 94-101): raise the duplicate-parameter `ValueError` when
the new group's members intersect the union of all previously registered
groups' members, otherwise append the group.  (The earlier dynamic-typing
checks of lines 72-92 — set rejection, tensor typing, defaults — concern
Python types and do not affect the membership data path modelled here.) -/
def addParamGroup (groups : List (List PMember)) (newG : List PMember) :
    Except String (List (List PMember)) :=
  if memberDup groups newG then .error dupMsg
  else .ok (groups ++ [newG])

theorem memberDup_iff (groups : List (List PMember)) (newG : List PMember) :
    memberDup groups newG = true ↔ ∃ pr ∈ newG, ∃ g ∈ groups, pr ∈ g := by
  simp [memberDup, List.any_eq_true]

/-- C8: hyperparameter resolution: a callable is applied to the step, a
constant is returned unchanged (`resolve` is a pure Lean function, so it has
no side effects). -/
theorem resolve_contract (α : Type) (f : ℕ → α) (c : α) (s : ℕ) :
    resolve (HVal.sched f) s = f s ∧ resolve (HVal.const c) s = c :=
  ⟨rfl, rfl⟩

/-- C7: with constant (non-callable) hyperparameters, construction of
`DifferentiableSGD` reports an error whenever the learning rate is negative,
the momentum is negative, the weight decay is negative, or nesterov is true
while momentum = 0 or dampening ≠ 0. -/
theorem sgd_init_rejects_invalid_constants (lr m damp wd : ℚ) (nest : Bool) :
    (lr < 0 → isErr (sgdValidate (.val (.const lr)) (.const m) (.const damp)
        (.const wd) (.const nest)) = true)
    ∧ (m < 0 → isErr (sgdValidate (.val (.const lr)) (.const m) (.const damp)
        (.const wd) (.const nest)) = true)
    ∧ (wd < 0 → isErr (sgdValidate (.val (.const lr)) (.const m) (.const damp)
        (.const wd) (.const nest)) = true)
    ∧ (nest = true → (m = 0 ∨ damp ≠ 0) →
        isErr (sgdValidate (.val (.const lr)) (.const m) (.const damp)
        (.const wd) (.const nest)) = true) := by
  refine ⟨fun h => ?_, fun h => ?_, fun h => ?_, fun h h2 => ?_⟩
  · simp [sgdValidate, lrBad, hvLt0, isErr, h]
  · by_cases hlr : lr < 0 <;>
      simp [sgdValidate, lrBad, hvLt0, isErr, h, hlr]
  · by_cases hlr : lr < 0 <;> by_cases hm : m < 0 <;>
      simp [sgdValidate, lrBad, hvLt0, isErr, h, hlr, hm]
  · subst h
    by_cases hlr : lr < 0 <;> by_cases hm : m < 0 <;> by_cases hwd : wd < 0 <;>
      rcases h2 with h2 | h2 <;>
      simp [sgdValidate, lrBad, hvLt0, isErr, nestBool, momLe0, dampNe0,
        h2, hlr, hm, hwd]

/-- Witness for `sgd_init_rejects_invalid_constants` at concrete inputs. -/
theorem sgd_init_rejects_invalid_constants_witness :
    isErr (sgdValidate (.val (.const (-1))) (.const 0) (.const 0)
        (.const 0) (.const false)) = true
    ∧ isErr (sgdValidate (.val (.const (1/10))) (.const 0) (.const 0)
        (.const 0) (.const true)) = true :=
  ⟨(sgd_init_rejects_invalid_constants (-1) 0 0 0 false).1 (by norm_num),
   (sgd_init_rejects_invalid_constants (1/10) 0 0 0 true).2.2.2 rfl (Or.inl rfl)⟩

/-- C9 (counterexample): a callable momentum does not skip the Nesterov
consistency check: with callable momentum, constant nesterov = true and
constant dampening = 1 the constructor still raises, because the
`dampening != 0` branch of the check remains active. -/
theorem sgd_callable_momentum_still_checked :
    sgdValidate (.val (.const (1/10))) (.sched fun _ => 9/10) (.const 1)
        (.const 0) (.const true)
      = .error "Nesterov momentum requires a momentum and zero dampening" := by
  norm_num [sgdValidate, lrBad, hvLt0, momLe0, dampNe0, nestBool]

/-- C9 (amended): callable hyperparameters skip all range validation — with
callable lr, momentum and weight decay, `DifferentiableSGD` construction
reduces exactly to the residual Nesterov check, which fires iff nesterov is
constant-true and dampening is nonzero-or-callable (the momentum branch of
the check is skipped for callable momentum, but not the dampening branch);
and `Adam` accepts callable lr, eps and betas with an arbitrary (unchecked)
weight decay. -/
theorem callable_hyperparams_skip_range_checks (flr fm fwd : ℕ → ℚ)
    (damp : HVal ℚ) (nv : HVal Bool) (alr aeps ab1 ab2 : ℕ → ℚ) (wd : HVal ℚ) :
    sgdValidate (.val (.sched flr)) (.sched fm) damp (.sched fwd) nv
      = (if nestBool nv && dampNe0 damp then
          Except.error "Nesterov momentum requires a momentum and zero dampening"
        else Except.ok ())
    ∧ adamValidate (.sched alr) (.sched aeps) (.sched ab1) (.sched ab2) wd
      = .ok () := by
  constructor
  · simp [sgdValidate, lrBad, hvLt0, momLe0]
  · simp [adamValidate, hvNotGe0, betaBad]

/-- C4 (counterexample): a name collision alone does not raise — two members
named "w" held by distinct tensor objects (object ids 0 and 1) are distinct
`(name, tensor)` pairs under identity-based set semantics, so the new group
is registered without error. -/
theorem addParamGroup_name_collision_no_error :
    addParamGroup [[("w", 0)]] [("w", 1)] = .ok [[("w", 0)], [("w", 1)]] := by
  rfl

/-- C4 (amended): `add_param_group` raises the duplicate-parameter
`ValueError` iff the new group contains a member identical — same name and
same tensor object — to a member of an already registered group; in that
case the rejected group is not registered (no result list is produced), and
otherwise the group is appended unchanged. -/
theorem addParamGroup_duplicate_iff (groups : List (List PMember))
    (newG : List PMember) :
    (addParamGroup groups newG = .error dupMsg
        ↔ ∃ pr ∈ newG, ∃ g ∈ groups, pr ∈ g)
    ∧ ((¬ ∃ pr ∈ newG, ∃ g ∈ groups, pr ∈ g) →
        addParamGroup groups newG = .ok (groups ++ [newG])) := by
  have hd := memberDup_iff groups newG
  constructor
  · by_cases h : memberDup groups newG
    · simp only [addParamGroup, h, if_true]
      exact iff_of_true trivial (hd.mp h)
    · simp only [addParamGroup, h, Bool.false_eq_true, if_false]
      constructor
      · intro hab; simp at hab
      · intro hex; exact absurd (hd.mpr hex) h
  · intro hex
    have h : memberDup groups newG = false := by
      cases hb : memberDup groups newG
      · rfl
      · exact absurd (hd.mp hb) hex
    simp [addParamGroup, h]

/-- Witness for `addParamGroup_duplicate_iff`: disjoint members register. -/
theorem addParamGroup_duplicate_iff_witness :
    addParamGroup [[("w", 0)]] [("x", 1)] = .ok [[("w", 0)], [("x", 1)]] :=
  (addParamGroup_duplicate_iff [[("w", 0)]] [("x", 1)]).2 (by decide)

/-- A parameter name (the dotted path inside the owning module tree). -/
abbrev PName : Type := String

/-- One tensor element: object identity, numeric payload, `hist` (the value
has recorded derivation history; `is_leaf` is `!hist`), `requires_grad`,
and whether `retain_grad` was called on it. -/
structure Tensor where
  oid : ℕ
  val : ℚ
  hist : Bool
  reqGrad : Bool
  retains : Bool
deriving DecidableEq

/-- Keys of the `DifferentiableOptimizer` state dict.  `step` and
`get_state` index `self.state[name]` with the plain parameter name, while
`forget` indexes `self.state[(i, name)]` with a (group index, name) tuple;
a Python dict can hold both key shapes side by side and they never
collide. -/
inductive SKey where
  | byName : PName → SKey
  | byIdx : ℕ → PName → SKey
deriving DecidableEq

/-- Dict lookup in an association list. -/
def alook {κ α : Type} [DecidableEq κ] (l : List (κ × α)) (k : κ) : Option α :=
  match l with
  | [] => none
  | (k', v) :: rest => if k' = k then some v else alook rest k

/-- Dict store: replace the first binding of the key, or append. -/
def aput {κ α : Type} [DecidableEq κ] (l : List (κ × α)) (k : κ) (v : α) :
    List (κ × α) :=
  match l with
  | [] => [(k, v)]
  | (k', v') :: rest => if k' = k then (k, v) :: rest else (k', v') :: aput rest k v

theorem alook_aput_self {κ α : Type} [DecidableEq κ] (l : List (κ × α))
    (k : κ) (v : α) : alook (aput l k v) k = some v := by
  induction l with
  | nil => simp [aput, alook]
  | cons hd tl ih =>
    by_cases h : hd.1 = k <;> simp [aput, alook, h, ih]

theorem alook_aput_ne {κ α : Type} [DecidableEq κ] (l : List (κ × α))
    (k k' : κ) (v : α) (hne : k ≠ k') : alook (aput l k v) k' = alook l k' := by
  induction l with
  | nil => simp [aput, alook, hne]
  | cons hd tl ih =>
    by_cases h : hd.1 = k
    · simp [aput, alook, h, hne]
    · by_cases h' : hd.1 = k' <;> simp [aput, alook, h, h', Ne.symm hne, ih]

/-- The momentum-buffer state of `DifferentiableSGD`
(`self.state = defaultdict(dict)`, each per-parameter dict holding at most
the key `momentum_buffer`). -/
abbrev SgdState : Type := List (SKey × Tensor)

/-- The final parameter update of the `step` loop body (src/dif_sgd.py lines
107-112), on the resolved direction value `d`:
in-place: `p.data.add_(-lr*wd, p); p.data.add_(-lr, d_p)` mutates `p`
(same object, same flags);
functional: `new_p = p - lr * d_p - wd * lr * p` builds a fresh derived
tensor and leaves `p` untouched. -/
def sgdApply (inPlace : Bool) (lr wd : ℚ) (p : Tensor) (d : ℚ)
    (st : SgdState) (alloc : ℕ) : Tensor × SgdState × ℕ :=
  if inPlace then
    (⟨p.oid, p.val + -(lr * wd) * p.val + -lr * d, p.hist, p.reqGrad, p.retains⟩,
      st, alloc)
  else
    (⟨alloc, p.val - lr * d - wd * lr * p.val, true, false, false⟩, st, alloc + 1)

/-- One iteration of the `for name, p in group['params'][1]` loop of
`DifferentiableSGD.step` (src/dif_sgd.py lines 75-112), with the group's
hyperparameters already resolved.  `alloc` is the allocator for fresh
object identities (each tensor creation takes one).  Mirrors the source:
* absent gradient: parameter carried through unchanged (a warning is
  emitted in both modes);
* nonzero momentum: the buffer is read from `self.state[name]`;
  - first use, in-place: `buf = zeros_like(p)`, then `buf.mul_(m).add_(g)`
    mutates the freshly stored zeros in place (no dampening);
  - first use, functional: `buf = zeros_like(p)` then
    `buf = buf * m + g` rebinds to a fresh derived tensor (no dampening);
  - later uses apply `buf*m + (1-dampening)*g` (in place resp. fresh);
  - Nesterov direction `g + m*buf` is built out of place in both modes;
  - the resulting buffer is stored back under `self.state[name]`;
* finally the parameter update `sgdApply`. -/
def sgdParamStep (inPlace : Bool) (lr m damp wd : ℚ) (nest : Bool)
    (name : PName) (p : Tensor) (grad : Option Tensor) (st : SgdState)
    (alloc : ℕ) : Tensor × SgdState × ℕ :=
  match grad with
  | none => (p, st, alloc)
  | some g =>
    if m = 0 then
      sgdApply inPlace lr wd p g.val st alloc
    else
      let bufA : Tensor × ℕ :=
        match alook st (SKey.byName name) with
        | none =>
          if inPlace then (⟨alloc, 0 * m + g.val, false, false, false⟩, alloc + 1)
          else (⟨alloc + 1, 0 * m + g.val, true, false, false⟩, alloc + 2)
        | some b =>
          if inPlace then
            (⟨b.oid, b.val * m + (1 - damp) * g.val, b.hist, b.reqGrad, b.retains⟩,
              alloc)
          else (⟨alloc, b.val * m + (1 - damp) * g.val, true, false, false⟩,
              alloc + 1)
      let dA : ℚ × ℕ :=
        if nest then (g.val + m * bufA.1.val, bufA.2 + 1) else (bufA.1.val, bufA.2)
      sgdApply inPlace lr wd p dA.1 (aput st (SKey.byName name) bufA.1) dA.2

/-- The effective update direction `d` of one SGD step, read off the source
formulas of src/dif_sgd.py lines 82-103: the gradient when momentum is zero,
otherwise the (first-use asymmetric) momentum recurrence, with the Nesterov
variant on top. -/
def sgdDirection (m damp : ℚ) (nest : Bool) (g : ℚ) (buf : Option Tensor) : ℚ :=
  if m = 0 then g
  else
    let b : ℚ :=
      match buf with
      | none => 0 * m + g
      | some b => b.val * m + (1 - damp) * g
    if nest then g + m * b else b

/-- C1: for every parameter, gradient and constant hyperparameters, the
in-place step and the functional step produce numerically identical
resulting parameter values; with momentum = 0 and weight decay = 0 the
result is `param - lr * gradient`; and in general the functional result is
`param - lr * d - weight_decay * lr * param` for the shared update
direction `d`. -/
theorem sgd_functional_inplace_agree (lr m damp wd : ℚ) (nest : Bool)
    (name : PName) (p : Tensor) (grad : Option Tensor) (st : SgdState)
    (a1 a2 : ℕ) :
    ((sgdParamStep true lr m damp wd nest name p grad st a1).1.val
      = (sgdParamStep false lr m damp wd nest name p grad st a2).1.val)
    ∧ (m = 0 → wd = 0 → ∀ g, grad = some g →
        (sgdParamStep false lr m damp wd nest name p grad st a2).1.val
          = p.val - lr * g.val)
    ∧ (∀ g, grad = some g →
        (sgdParamStep false lr m damp wd nest name p grad st a2).1.val
          = p.val - lr * sgdDirection m damp nest g.val (alook st (SKey.byName name))
            - wd * lr * p.val) := by
  refine ⟨?_, ?_, ?_⟩
  · cases grad with
    | none => rfl
    | some g =>
      by_cases hm : m = 0
      · simp [sgdParamStep, sgdApply, hm]
        try ring
      · cases hb : alook st (SKey.byName name) with
        | none =>
          cases nest <;> simp [sgdParamStep, sgdApply, hm, hb] <;> try ring
        | some b =>
          cases nest <;> simp [sgdParamStep, sgdApply, hm, hb] <;> try ring
  · intro hm hwd g hg
    subst hm; subst hwd; subst hg
    simp [sgdParamStep, sgdApply]
  · intro g hg
    subst hg
    by_cases hm : m = 0
    · simp [sgdParamStep, sgdApply, sgdDirection, hm]
    · cases hb : alook st (SKey.byName name) with
      | none =>
        cases nest <;> simp [sgdParamStep, sgdApply, sgdDirection, hm, hb]
      | some b =>
        cases nest <;> simp [sgdParamStep, sgdApply, sgdDirection, hm, hb]

/-- Witness for `sgd_functional_inplace_agree` at a concrete input. -/
theorem sgd_functional_inplace_agree_witness :
    (sgdParamStep false (1/2) 0 0 0 false "p" ⟨0, 4, false, true, false⟩
        (some ⟨1, 2, false, false, false⟩) [] 2).1.val
      = (⟨0, 4, false, true, false⟩ : Tensor).val
        - (1/2) * (⟨1, 2, false, false, false⟩ : Tensor).val :=
  (sgd_functional_inplace_agree (1/2) 0 0 0 false "p" ⟨0, 4, false, true, false⟩
      (some ⟨1, 2, false, false, false⟩) [] 2 2).2.1 rfl rfl
    ⟨1, 2, false, false, false⟩ rfl

/-- C2: with nonzero momentum the stored buffer follows the asymmetric
recurrence — zero-initialized first use `buf*m + g` with no dampening,
subsequent uses `buf*m + (1-dampening)*g` — in both modes; the update
direction is `g + m*buf` under Nesterov and `buf` otherwise (expressed via
the resulting functional parameter value); and at the spec's concrete
first step (momentum 0.9, dampening 0, no Nesterov, no weight decay,
lr 1, param 5, gradient 2) the buffer becomes 2 and the parameter 3. -/
theorem sgd_momentum_buffer_recurrence (inP : Bool) (lr m damp wd : ℚ)
    (nest : Bool) (name : PName) (p g : Tensor) (st : SgdState) (alloc : ℕ)
    (hm : m ≠ 0) :
    (alook st (SKey.byName name) = none →
      (alook (sgdParamStep inP lr m damp wd nest name p (some g) st alloc).2.1
          (SKey.byName name)).map Tensor.val = some (0 * m + g.val))
    ∧ (∀ b, alook st (SKey.byName name) = some b →
      (alook (sgdParamStep inP lr m damp wd nest name p (some g) st alloc).2.1
          (SKey.byName name)).map Tensor.val
        = some (b.val * m + (1 - damp) * g.val))
    ∧ (∀ bv, (alook (sgdParamStep inP lr m damp wd nest name p (some g) st alloc).2.1
          (SKey.byName name)).map Tensor.val = some bv →
      (sgdParamStep false lr m damp wd nest name p (some g) st alloc).1.val
        = p.val - lr * (if nest then g.val + m * bv else bv) - wd * lr * p.val)
    ∧ ((sgdParamStep false 1 (9/10) 0 0 false "p" ⟨0, 5, false, true, false⟩
          (some ⟨1, 2, true, false, false⟩) [] 2).1.val = 3
        ∧ (alook (sgdParamStep false 1 (9/10) 0 0 false "p"
              ⟨0, 5, false, true, false⟩ (some ⟨1, 2, true, false, false⟩) [] 2).2.1
            (SKey.byName "p")).map Tensor.val = some 2) := by
  refine ⟨?_, ?_, ?_, by norm_num [sgdParamStep, sgdApply, alook, aput]⟩
  · intro hb
    cases inP <;>
      simp [sgdParamStep, sgdApply, hm, hb, alook_aput_self]
  · intro b hb
    cases inP <;>
      simp [sgdParamStep, sgdApply, hm, hb, alook_aput_self]
  · intro bv hbv
    cases hb : alook st (SKey.byName name) with
    | none =>
      have hbv' : bv = 0 * m + g.val := by
        cases inP <;>
          simpa [sgdParamStep, sgdApply, hm, hb, alook_aput_self] using hbv.symm
      subst hbv'
      cases nest <;> simp [sgdParamStep, sgdApply, hm, hb]
    | some b =>
      have hbv' : bv = b.val * m + (1 - damp) * g.val := by
        cases inP <;>
          simpa [sgdParamStep, sgdApply, hm, hb, alook_aput_self] using hbv.symm
      subst hbv'
      cases nest <;> simp [sgdParamStep, sgdApply, hm, hb]

/-- One parameter group of `DifferentiableSGD`, after `add_param_group`
normalization: the named members (`group['params'][1]`; the installer
`group['params'][0]` is modelled separately by `setAllParameters`) and the
per-group hyperparameters. -/
structure SgdGroup where
  params : List (PName × Tensor)
  lr : HVal ℚ
  momentum : HVal ℚ
  dampening : HVal ℚ
  weight_decay : HVal ℚ
  nesterov : HVal Bool

/-- The `for name, p in group['params'][1]` loop of `DifferentiableSGD.step`
over a whole group, consuming gradients positionally (`p_num`); an exhausted
gradient sequence is a Python `IndexError` (`none`).  Returns the group's
resulting named entries (`new_params.items()` in functional mode, the
mutated tensors in in-place mode), the remaining gradients, the state and
the allocator. -/
def sgdParamsStep (inPlace : Bool) (lr m damp wd : ℚ) (nest : Bool)
    (ps : List (PName × Tensor)) (grads : List (Option Tensor)) (st : SgdState)
    (alloc : ℕ) :
    Option (List (PName × Tensor) × List (Option Tensor) × SgdState × ℕ) :=
  match ps with
  | [] => some ([], grads, st, alloc)
  | (n, p) :: rest =>
    match grads with
    | [] => none
    | gr :: grest =>
      let r := sgdParamStep inPlace lr m damp wd nest n p gr st alloc
      match sgdParamsStep inPlace lr m damp wd nest rest grest r.2.1 r.2.2 with
      | none => none
      | some (entries, gleft, st', a') => some ((n, r.1) :: entries, gleft, st', a')

/-- `DifferentiableSGD.step` (src/dif_sgd.py lines 57-116) on already
re-derived groups: the step counter has been incremented to `sn`, each
group's hyperparameters are resolved at `sn`, and each group's parameters
are processed in order.  In functional mode the group's member list is
replaced by the freshly built entries (the installer call that writes them
back into the module is `setAllParameters`). -/
def sgdStep (inPlace : Bool) (sn : ℕ) (groups : List SgdGroup)
    (grads : List (Option Tensor)) (st : SgdState) (alloc : ℕ) :
    Option (List SgdGroup × SgdState × ℕ) :=
  match groups with
  | [] => some ([], st, alloc)
  | g :: rest =>
    match sgdParamsStep inPlace (resolve g.lr sn) (resolve g.momentum sn)
        (resolve g.dampening sn) (resolve g.weight_decay sn)
        (resolve g.nesterov sn) g.params grads st alloc with
    | none => none
    | some (entries, gleft, st', a') =>
      match sgdStep inPlace sn rest gleft st' a' with
      | none => none
      | some (rest', st'', a'') =>
        some (⟨entries, g.lr, g.momentum, g.dampening, g.weight_decay,
            g.nesterov⟩ :: rest', st'', a'')

/-- `tensor.detach_()` on a stored state value inside `forget`: drop the
recorded derivation history in place, keeping value and identity. -/
def forgetDetach (st : SgdState) (k : SKey) : SgdState :=
  match alook st k with
  | none => st
  | some t => aput st k ⟨t.oid, t.val, false, t.reqGrad, t.retains⟩

/-- The inner loop of `DifferentiableOptimizer.forget` (src/utils.py lines
107-114) for one group with index `i`: for each member, detach every value
of `self.state[(i, name)]` — note the (group index, name) tuple key — and
re-mark the parameter itself as a fresh differentiable leaf
(`p.detach_().requires_grad_(True)`). -/
def forgetParams (i : ℕ) (ps : List (PName × Tensor)) (st : SgdState) :
    List (PName × Tensor) × SgdState :=
  match ps with
  | [] => ([], st)
  | (n, p) :: rest =>
    let st1 := forgetDetach st (SKey.byIdx i n)
    let p' : Tensor := ⟨p.oid, p.val, false, true, p.retains⟩
    let r := forgetParams i rest st1
    ((n, p') :: r.1, r.2)

/-- The `for i, group in enumerate(self.param_groups)` loop of `forget`. -/
def forgetGroups (i : ℕ) (gs : List SgdGroup) (st : SgdState) :
    List SgdGroup × SgdState :=
  match gs with
  | [] => ([], st)
  | g :: rest =>
    let r := forgetParams i g.params st
    let r2 := forgetGroups (i + 1) rest r.2
    (⟨r.1, g.lr, g.momentum, g.dampening, g.weight_decay, g.nesterov⟩ :: r2.1,
      r2.2)

/-- `DifferentiableOptimizer.forget` (src/utils.py lines 103-114), after the
`get_param_groups()` re-derivation. -/
def forget (gs : List SgdGroup) (st : SgdState) : List SgdGroup × SgdState :=
  forgetGroups 0 gs st

/-- The concrete run exhibiting the `forget` key mismatch: one functional
step with momentum 1 on parameter "p" (a leaf holding 5) whose gradient 2
is a derived tensor, starting from empty state. -/
def c3run : Tensor × SgdState × ℕ :=
  sgdParamStep false 1 1 0 0 false "p" ⟨0, 5, false, true, false⟩
    (some ⟨1, 2, true, false, false⟩) [] 2

/-- The single re-derived parameter group seen by the subsequent
`forget()` call: group 0 holds the new value of "p". -/
def c3groups : List SgdGroup :=
  [⟨[("p", c3run.1)], .const 1, .const 1, .const 0, .const 0, .const false⟩]

/-- C3 (code bug): the functional step stores the momentum buffer of "p" —
a derived tensor, `hist = true` — under the plain-name key
`self.state["p"]`, but `forget` only touches `self.state[(0, "p")]`, so
after `forget()` the stored buffer still carries its derivation history
(it is not detached), even though the live parameter itself is correctly
re-marked as a fresh differentiable leaf. -/
theorem forget_misses_momentum_buffer :
    ((alook c3run.2.1 (SKey.byName "p")).map Tensor.hist = some true)
    ∧ ((alook (forget c3groups c3run.2.1).2 (SKey.byName "p")).map Tensor.hist
        = some true)
    ∧ ((forget c3groups c3run.2.1).1.map fun g =>
        g.params.map fun q => (q.2.hist, q.2.reqGrad)) = [[(false, true)]] := by
  refine ⟨?_, ?_, ?_⟩ <;>
    norm_num [c3run, c3groups, forget, forgetGroups, forgetParams, forgetDetach,
      sgdParamStep, sgdApply, alook, aput]

/-- `DifferentiableSGD.get_state` (src/dif_sgd.py lines 32-41), inner loop
over `group['params'][1]` with the group's momentum already resolved: if
momentum is nonzero and `self.state[name]` holds no buffer yet, a fresh
zero tensor is allocated and inserted into the state; then the stored
buffer object itself (the same object, no copy) is written into the output
dict.  With zero momentum and no stored buffer the subsequent lookup is a
Python `KeyError` (`none`). -/
def getStateParams (m : ℚ) (ps : List (PName × Tensor)) (st : SgdState)
    (alloc : ℕ) (out : List (PName × Tensor)) :
    Option (SgdState × ℕ × List (PName × Tensor)) :=
  match ps with
  | [] => some (st, alloc, out)
  | (n, _p) :: rest =>
    match alook st (SKey.byName n) with
    | some b => getStateParams m rest st alloc (aput out n b)
    | none =>
      if m ≠ 0 then
        getStateParams m rest
          (aput st (SKey.byName n) ⟨alloc, 0, false, false, false⟩) (alloc + 1)
          (aput out n ⟨alloc, 0, false, false, false⟩)
      else none

/-- The group loop of `get_state`: one shared output dict, momentum
resolved per group at the current step number. -/
def getState (sn : ℕ) (groups : List SgdGroup) (st : SgdState) (alloc : ℕ)
    (out : List (PName × Tensor)) :
    Option (SgdState × ℕ × List (PName × Tensor)) :=
  match groups with
  | [] => some (st, alloc, out)
  | g :: rest =>
    match getStateParams (resolve g.momentum sn) g.params st alloc out with
    | none => none
    | some (st', a', out') => getState sn rest st' a' out'

theorem getStateParams_total (m : ℚ) (hm : m ≠ 0) (ps : List (PName × Tensor)) :
    ∀ (st : SgdState) (alloc : ℕ) (out : List (PName × Tensor)),
      ∃ r, getStateParams m ps st alloc out = some r := by
  induction ps with
  | nil => exact fun st alloc out => ⟨_, rfl⟩
  | cons hd tl ih =>
    intro st alloc out
    obtain ⟨n, p⟩ := hd
    cases hb : alook st (SKey.byName n) with
    | some b =>
      simp only [getStateParams, hb]
      exact ih _ _ _
    | none =>
      simp only [getStateParams, hb, if_pos hm]
      exact ih _ _ _

theorem getStateParams_preserve (m : ℚ) (n : PName)
    (ps : List (PName × Tensor)) :
    ∀ (st : SgdState) (alloc : ℕ) (out : List (PName × Tensor))
      (r : SgdState × ℕ × List (PName × Tensor)),
      n ∉ ps.map Prod.fst →
      getStateParams m ps st alloc out = some r →
      alook r.1 (SKey.byName n) = alook st (SKey.byName n)
      ∧ alook r.2.2 n = alook out n := by
  induction ps with
  | nil =>
    intro st alloc out r _ h
    simp only [getStateParams, Option.some.injEq] at h
    subst h
    exact ⟨rfl, rfl⟩
  | cons hd tl ih =>
    intro st alloc out r hn h
    obtain ⟨n', p'⟩ := hd
    have hne : n' ≠ n := by
      intro he
      exact hn (by simp [he])
    have hkey : SKey.byName n' ≠ SKey.byName n := by
      intro he
      exact hne (by injection he)
    have htl : n ∉ tl.map Prod.fst := fun hmem => hn (by simp [hmem])
    cases hb : alook st (SKey.byName n') with
    | some b =>
      simp only [getStateParams, hb] at h
      have hih := ih _ _ _ _ htl h
      rw [alook_aput_ne _ _ _ _ hne] at hih
      exact hih
    | none =>
      by_cases hm0 : m ≠ 0
      · simp only [getStateParams, hb, if_pos hm0] at h
        have hih := ih _ _ _ _ htl h
        rw [alook_aput_ne _ _ _ _ hkey] at hih
        rw [alook_aput_ne _ _ _ _ hne] at hih
        exact hih
      · simp only [getStateParams, hb, if_neg hm0] at h
        cases h

/-- C10: `get_state` is not read-only: for a parameter whose group momentum
resolves to a nonzero value and which has no stored momentum buffer yet,
`get_state` inserts a zero-initialized buffer (a fresh tensor, value 0)
into the optimizer state as a side effect, and the returned mapping holds
the very same stored tensor object (same object identity — an alias, not a
copy). -/
theorem getState_inserts_and_aliases (sn : ℕ) (glr gm gd gw : HVal ℚ)
    (gn : HVal Bool) (n : PName) (p : Tensor) (rest : List (PName × Tensor))
    (st : SgdState) (alloc : ℕ)
    (hm : resolve gm sn ≠ 0) (hb : alook st (SKey.byName n) = none)
    (hrn : n ∉ rest.map Prod.fst) :
    ∃ st' a' out',
      getState sn [⟨(n, p) :: rest, glr, gm, gd, gw, gn⟩] st alloc []
        = some (st', a', out')
      ∧ alook st' (SKey.byName n) = some ⟨alloc, 0, false, false, false⟩
      ∧ alook out' n = alook st' (SKey.byName n) := by
  obtain ⟨r, hr'⟩ := getStateParams_total (resolve gm sn) hm rest
    (aput st (SKey.byName n) ⟨alloc, 0, false, false, false⟩) (alloc + 1)
    (aput [] n ⟨alloc, 0, false, false, false⟩)
  have hpres := getStateParams_preserve (resolve gm sn) n rest _ _ _ r hrn hr'
  refine ⟨r.1, r.2.1, r.2.2, ?_, ?_, ?_⟩
  · simp only [getState, getStateParams, hb, if_pos hm, hr']
  · rw [hpres.1, alook_aput_self]
  · rw [hpres.2, hpres.1, alook_aput_self, alook_aput_self]

/-- Witness for `getState_inserts_and_aliases` at a concrete input. -/
theorem getState_inserts_and_aliases_witness :
    ∃ st' a' out',
      getState 0 [⟨[("p", ⟨0, 1, false, true, false⟩)], .const 1, .const 1,
          .const 0, .const 0, .const false⟩] [] 5 []
        = some (st', a', out')
      ∧ alook st' (SKey.byName "p") = some ⟨5, 0, false, false, false⟩
      ∧ alook out' "p" = alook st' (SKey.byName "p") :=
  getState_inserts_and_aliases 0 (.const 1) (.const 1) (.const 0) (.const 0)
    (.const false) "p" ⟨0, 1, false, true, false⟩ [] [] 5
    (by norm_num [resolve]) rfl (by simp)

/-- Witness for `sgd_momentum_buffer_recurrence` at a concrete input. -/
theorem sgd_momentum_buffer_recurrence_witness :
    (alook (sgdParamStep false 1 (9/10) 0 0 false "p" ⟨0, 5, false, true, false⟩
        (some ⟨1, 2, true, false, false⟩) [] 2).2.1
      (SKey.byName "p")).map Tensor.val = some (0 * (9/10) + (2 : ℚ)) :=
  (sgd_momentum_buffer_recurrence false 1 (9/10) 0 0 false "p"
      ⟨0, 5, false, true, false⟩ ⟨1, 2, true, false, false⟩ [] 2
      (by norm_num)).1 rfl

/-- Per-parameter Adam state record (`self.state[p]`, src/adam.py lines
78-95): the per-parameter step count, both moment estimates, and the
running maximum of the second moment (present iff the state was initialized
with amsgrad). -/
structure AdamPState where
  step : ℕ
  exp_avg : ℚ
  exp_avg_sq : ℚ
  max_exp_avg_sq : Option ℚ
deriving DecidableEq

/-- One parameter group of `Adam`.  `betas` is resolved as a whole tuple by
`self.get` (src/adam.py line 76); `eps` is read raw from the group dict at
the point of use (lines 104/106). -/
structure AdamGroup where
  params : List Tensor
  lr : HVal ℚ
  betas : HVal (ℚ × ℚ)
  eps : HVal ℚ
  weight_decay : HVal ℚ
  amsgrad : HVal Bool

/-- The `Adam` optimizer: the optimizer-wide step counter (`step_number`,
src/adam.py lines 41 and 59), the groups, and the per-parameter state dict
keyed by parameter object identity (`self.state[p]`). -/
structure AdamOpt where
  step_number : ℕ
  groups : List AdamGroup
  pstates : List (ℕ × AdamPState)

/-- The body of the `for p in group['params']` loop of `Adam.step`
(src/adam.py lines 63-114), with `sn` the already-incremented optimizer
step counter used by `self.get`, and `rt` abstracting the square root.
Mirrors the source:
* absent gradient: warn and continue (state untouched);
* sparse gradients cannot arise in this per-element model (gradients are
  plain rationals), so the sparse `RuntimeError` branch is vacuous;
* first-use state initialization: step 0, zero moments, and a zero running
  maximum exactly when amsgrad resolves true at that moment;
* `state['step'] += 1`; moment updates; the denominator (a `KeyError`,
  `none`, if amsgrad resolves true but the state was initialized without
  the running maximum); bias corrections with exponent `state['step']`;
  and the two in-place parameter updates.
A callable `eps` would be added raw to a tensor, a Python `TypeError`,
modelled as `none`. -/
def adamParamStep (rt : ℚ → ℚ) (sn : ℕ) (g : AdamGroup) (p : Tensor)
    (grad : Option ℚ) (pst : List (ℕ × AdamPState)) :
    Option (Tensor × List (ℕ × AdamPState)) :=
  match grad with
  | none => some (p, pst)
  | some gv =>
    let amsgrad := resolve g.amsgrad sn
    let lr := resolve g.lr sn
    let wd := resolve g.weight_decay sn
    let beta1 := (resolve g.betas sn).1
    let beta2 := (resolve g.betas sn).2
    let st0 : AdamPState :=
      match alook pst p.oid with
      | none => ⟨0, 0, 0, if amsgrad then some 0 else none⟩
      | some s => s
    let stepc := st0.step + 1
    let ea := st0.exp_avg * beta1 + (1 - beta1) * gv
    let eas := st0.exp_avg_sq * beta2 + (1 - beta2) * (gv * gv)
    match g.eps with
    | .sched _ => none
    | .const eps =>
      let denomM : Option (ℚ × Option ℚ) :=
        if amsgrad then
          match st0.max_exp_avg_sq with
          | none => none
          | some mx => some (rt (max mx eas) + eps, some (max mx eas))
        else some (rt eas + eps, st0.max_exp_avg_sq)
      match denomM with
      | none => none
      | some de =>
        let bias_correction1 := 1 - beta1 ^ stepc
        let bias_correction2 := 1 - beta2 ^ stepc
        let step_size := lr * rt bias_correction2 / bias_correction1
        some (⟨p.oid, p.val + -(wd * lr) * p.val + -step_size * (ea / de.1),
            p.hist, p.reqGrad, p.retains⟩,
          aput pst p.oid ⟨stepc, ea, eas, de.2⟩)

/-- The parameter loop of `Adam.step` over one group, consuming gradients
positionally; an exhausted gradient sequence is a Python `IndexError`. -/
def adamParamsStep (rt : ℚ → ℚ) (sn : ℕ) (g : AdamGroup) (ps : List Tensor)
    (grads : List (Option ℚ)) (pst : List (ℕ × AdamPState)) :
    Option (List Tensor × List (Option ℚ) × List (ℕ × AdamPState)) :=
  match ps with
  | [] => some ([], grads, pst)
  | p :: rest =>
    match grads with
    | [] => none
    | gr :: grest =>
      match adamParamStep rt sn g p gr pst with
      | none => none
      | some r =>
        match adamParamsStep rt sn g rest grest r.2 with
        | none => none
        | some (ps', gleft, pst') => some (r.1 :: ps', gleft, pst')

/-- The group loop of `Adam.step`. -/
def adamGroupsStep (rt : ℚ → ℚ) (sn : ℕ) (gs : List AdamGroup)
    (grads : List (Option ℚ)) (pst : List (ℕ × AdamPState)) :
    Option (List AdamGroup × List (ℕ × AdamPState)) :=
  match gs with
  | [] => some ([], pst)
  | g :: rest =>
    match adamParamsStep rt sn g g.params grads pst with
    | none => none
    | some (ps', gleft, pst') =>
      match adamGroupsStep rt sn rest gleft pst' with
      | none => none
      | some (rest', pst'') =>
        some (⟨ps', g.lr, g.betas, g.eps, g.weight_decay, g.amsgrad⟩ :: rest',
          pst'')

/-- `Adam.step` (src/adam.py lines 56-114): increment `self.step_number`,
then run the group loop; schedules are resolved at the incremented
counter. -/
def adamStep (rt : ℚ → ℚ) (o : AdamOpt) (grads : List (Option ℚ)) :
    Option AdamOpt :=
  match adamGroupsStep rt (o.step_number + 1) o.groups grads o.pstates with
  | none => none
  | some (gs, pst) => some ⟨o.step_number + 1, gs, pst⟩

/-- Concrete Adam instance for the step-counter claim: one parameter
(object id 0, value 1), lr 1, betas (1/2, 1/2), eps 1/100, no weight decay,
no amsgrad, initial step number 0. -/
def c6opt : AdamOpt :=
  ⟨0, [⟨[⟨0, 1, false, true, false⟩], .const 1, .const (1/2, 1/2),
      .const (1/100), .const 0, .const false⟩], []⟩

/-- C6 (counterexample): the bias-correction exponent is not the
optimizer's StepCounter.  Run two step calls on `c6opt`: the first with a
`None` gradient (warn-and-skip), the second with gradient 1.  Afterwards
the optimizer StepCounter is 2, but the parameter's state counter — the
exponent `t` that the second call used in `1-β1^t` and `1-β2^t` — is 1. -/
theorem adam_exponent_ne_step_counter :
    (((adamStep (fun q => q) c6opt [none]).bind fun o =>
        adamStep (fun q => q) o [some 1]).map fun o =>
          (o.step_number, (alook o.pstates 0).map AdamPState.step))
      = some (2, some 1)
    ∧ (2 : ℕ) ≠ 1 := by
  refine ⟨?_, by norm_num⟩
  norm_num [adamStep, adamGroupsStep, adamParamsStep, adamParamStep, alook,
    aput, c6opt, resolve]

/-- C6 (amended): the exponent of the bias-correction factors is the
parameter's own `state['step']` counter — zero-initialized when the
parameter's state is first created and incremented exactly on the step
calls in which that parameter's gradient is present — not the optimizer's
StepCounter.  The optimizer StepCounter itself advances by exactly one per
step call (and is what schedules are resolved with), while a `None`
gradient leaves the per-parameter state untouched, so the two counters
diverge whenever a gradient is absent or the initial step number is
nonzero. -/
theorem adam_exponent_is_param_counter (rt : ℚ → ℚ) (o : AdamOpt)
    (g : AdamGroup) (p : Tensor) (gr : Option ℚ) (e : ℚ)
    (hg : o.groups = [g]) (hp : g.params = [p]) (ha : g.amsgrad = .const false)
    (he : g.eps = .const e) :
    ((adamStep rt o [gr]).map AdamOpt.step_number = some (o.step_number + 1))
    ∧ (gr = none → (adamStep rt o [gr]).map AdamOpt.pstates = some o.pstates)
    ∧ (∀ gv, gr = some gv →
        ((adamStep rt o [gr]).bind fun o' =>
            (alook o'.pstates p.oid).map AdamPState.step)
          = some ((match alook o.pstates p.oid with
              | none => 0
              | some s => s.step) + 1)) := by
  cases gr with
  | none =>
    refine ⟨?_, fun _ => ?_, fun gv hgv => by cases hgv⟩ <;>
      simp [adamStep, adamGroupsStep, adamParamsStep, adamParamStep, hg, hp]
  | some gv =>
    refine ⟨?_, ?_, ?_⟩
    · cases halook : alook o.pstates p.oid <;>
        simp [adamStep, adamGroupsStep, adamParamsStep, adamParamStep, hg, hp,
          ha, he, resolve, halook]
    · intro h
      cases h
    · intro gv' hgv
      cases hgv
      cases halook : alook o.pstates p.oid <;>
        simp [adamStep, adamGroupsStep, adamParamsStep, adamParamStep, hg, hp,
          ha, he, resolve, halook, alook_aput_self]

/-- Witness for `adam_exponent_is_param_counter` at a concrete input. -/
theorem adam_exponent_is_param_counter_witness :
    ((adamStep (fun q => q) c6opt [some 1]).bind fun o' =>
        (alook o'.pstates 0).map AdamPState.step) = some 1 := by
  have h := (adam_exponent_is_param_counter (fun q => q) c6opt
    ⟨[⟨0, 1, false, true, false⟩], .const 1, .const (1/2, 1/2), .const (1/100),
      .const 0, .const false⟩ ⟨0, 1, false, true, false⟩ (some 1) (1/100)
    rfl rfl rfl rfl).2.2 1 rfl
  simpa [c6opt, alook] using h

/-- The owning module tree, flattened the way `top_module.named_modules()`
presents it to `set_all_parameters` (src/utils.py lines 29-35): an ordered
list of (raw prefix, locally owned named slots) pairs — the slots are
`module._parameters` resp. `module._buffers`. -/
abbrev Mods : Type := List (String × List (PName × Tensor))

/-- Python `pref = "" if prefix == "" else prefix + "."`. -/
def pfxDot (s : String) : String := if s = "" then "" else s ++ "."

/-- The differentiability fix-up of `ParameterSetter.__call__` (src/utils.py
lines 22-26) applied to an installed value: when `requires_grad` and not
`is_buffer`, a leaf value is marked `requires_grad_(True)` and a derived
value gets `retain_grad()` instead; otherwise the value is untouched. -/
def adjustV (rg isBuf : Bool) (v : Tensor) : Tensor :=
  if rg && !isBuf then
    if !v.hist then ⟨v.oid, v.val, v.hist, true, v.retains⟩
    else ⟨v.oid, v.val, v.hist, v.reqGrad, true⟩
  else v

/-- `ParameterSetter.__call__` (src/utils.py lines 17-27) on one module:
for every local slot name whose prefixed path is a key of `new_params`,
count it found and overwrite the slot with the (fix-ed up) new value.
Returns the updated slots and the number found in this module. -/
def setterCall (np : List (PName × Tensor)) (rg isBuf : Bool) (pfx : String)
    (slots : List (PName × Tensor)) : List (PName × Tensor) × ℕ :=
  match slots with
  | [] => ([], 0)
  | (n, v) :: rest =>
    let r := setterCall np rg isBuf pfx rest
    match alook np (pfx ++ n) with
    | none => ((n, v) :: r.1, r.2)
    | some nv => ((n, adjustV rg isBuf nv) :: r.1, r.2 + 1)

/-- The total `num_found` accumulated by one `ParameterSetter` across the
whole module list of `set_all_parameters`. -/
def foundCount (mods : Mods) (np : List (PName × Tensor)) (rg isBuf : Bool) :
    ℕ :=
  ((mods.map fun m => setterCall np rg isBuf (pfxDot m.1) m.2).map
    fun r => r.2).sum

/-- `set_all_parameters` (src/utils.py lines 29-35): run the setter over
every named module and then `assert setter.num_found == len(new_params)`
(assertion failure modelled as `none`).  The source's single traversal both
rewrites the slots and accumulates the counter; here the two are the paired
results of the same `setterCall`. -/
def setAllParameters (mods : Mods) (np : List (PName × Tensor))
    (rg isBuf : Bool) : Option Mods :=
  if foundCount mods np rg isBuf = np.length then
    some (mods.map fun m => (m.1, (setterCall np rg isBuf (pfxDot m.1) m.2).1))
  else none

/-- All slots of the module tree, as (full dotted path, value) pairs. -/
def modEntries (mods : Mods) : List (PName × Tensor) :=
  match mods with
  | [] => []
  | m :: rest => (m.2.map fun s => (pfxDot m.1 ++ s.1, s.2)) ++ modEntries rest

/-- All full dotted slot paths of the module tree. -/
def modPaths (mods : Mods) : List PName := (modEntries mods).map Prod.fst

theorem alook_isSome_iff {κ α : Type} [DecidableEq κ] (l : List (κ × α))
    (k : κ) : (alook l k).isSome = true ↔ k ∈ l.map Prod.fst := by
  induction l with
  | nil => simp [alook]
  | cons hd tl ih =>
    by_cases h : hd.1 = k
    · simp [alook, h]
    · simp only [alook, h, if_false, List.map_cons, List.mem_cons, ih]
      constructor
      · intro hk
        exact Or.inr hk
      · rintro (hk | hk)
        · exact absurd hk.symm h
        · exact hk

theorem alook_of_mem_of_nodup {κ α : Type} [DecidableEq κ]
    (l : List (κ × α)) (hk : (l.map Prod.fst).Nodup) (k : κ) (v : α)
    (hmem : (k, v) ∈ l) : alook l k = some v := by
  induction l with
  | nil => cases hmem
  | cons hd tl ih =>
    rcases List.mem_cons.mp hmem with h | hmem'
    · subst h
      simp [alook]
    · have hne : hd.1 ≠ k := by
        intro he
        subst he
        exact (List.nodup_cons.mp hk).1 (List.mem_map.mpr ⟨_, hmem', rfl⟩)
      simp only [alook, hne, if_false]
      exact ih (List.nodup_cons.mp hk).2 hmem'

theorem setterCall_count (np : List (PName × Tensor)) (rg isBuf : Bool)
    (pfx : String) (slots : List (PName × Tensor)) :
    (setterCall np rg isBuf pfx slots).2
      = ((slots.map fun s => pfx ++ s.1).filter
          fun k => (alook np k).isSome).length := by
  induction slots with
  | nil => rfl
  | cons hd tl ih =>
    obtain ⟨n, v⟩ := hd
    cases h : alook np (pfx ++ n) with
    | none => simp [setterCall, h, ih]
    | some nv => simp [setterCall, h, ih]

theorem setterCall_fst (np : List (PName × Tensor)) (rg isBuf : Bool)
    (pfx : String) (slots : List (PName × Tensor)) :
    (setterCall np rg isBuf pfx slots).1
      = slots.map fun s =>
          match alook np (pfx ++ s.1) with
          | none => s
          | some nv => (s.1, adjustV rg isBuf nv) := by
  induction slots with
  | nil => rfl
  | cons hd tl ih =>
    obtain ⟨n, v⟩ := hd
    cases h : alook np (pfx ++ n) with
    | none => simp [setterCall, h, ih]
    | some nv => simp [setterCall, h, ih]

theorem foundCount_eq (mods : Mods) (np : List (PName × Tensor))
    (rg isBuf : Bool) :
    foundCount mods np rg isBuf
      = ((modPaths mods).filter fun k => (alook np k).isSome).length := by
  induction mods with
  | nil => rfl
  | cons hd tl ih =>
    simp only [foundCount, List.map_cons, List.sum_cons, setterCall_count,
      modPaths, modEntries, List.map_append, List.filter_append,
      List.length_append, List.map_map]
    have hfn : (Prod.fst ∘ fun s : PName × Tensor =>
        (pfxDot hd.1 ++ s.1, s.2)) = fun s => pfxDot hd.1 ++ s.1 := rfl
    rw [hfn, ← List.map_map]
    simp only [foundCount, modPaths] at ih
    rw [ih]

theorem mapped_modEntries (mods : Mods) (np : List (PName × Tensor))
    (rg isBuf : Bool) :
    modEntries (mods.map fun m =>
        (m.1, (setterCall np rg isBuf (pfxDot m.1) m.2).1))
      = (modEntries mods).map fun e =>
          match alook np e.1 with
          | none => e
          | some nv => (e.1, adjustV rg isBuf nv) := by
  induction mods with
  | nil => rfl
  | cons hd tl ih =>
    simp only [List.map_cons, modEntries, List.map_append]
    congr 1
    all_goals
      rw [setterCall_fst, List.map_map, List.map_map]
      apply List.map_congr_left
      intro s _
      cases h : alook np (pfxDot hd.1 ++ s.1) <;> simp [Function.comp, h]

/-- C5: injector invariant of `set_all_parameters`, for a module tree with
distinct slot paths and a named-value set with distinct names: on normal
completion the discovery counter equals the size of the named-value set and
every supplied named value occupies (with its differentiability fix-up) the
slot whose dotted path equals its name; and if some supplied name matches
no slot path, the traversal ends in the assertion failure. -/
theorem setAllParameters_spec (mods : Mods) (np : List (PName × Tensor))
    (rg isBuf : Bool) (hA : (modPaths mods).Nodup)
    (hK : (np.map Prod.fst).Nodup) :
    (∀ mods', setAllParameters mods np rg isBuf = some mods' →
        foundCount mods np rg isBuf = np.length
        ∧ ∀ kv ∈ np, (kv.1, adjustV rg isBuf kv.2) ∈ modEntries mods')
    ∧ ((∃ k ∈ np.map Prod.fst, k ∉ modPaths mods) →
        setAllParameters mods np rg isBuf = none) := by
  have hFsub : ((modPaths mods).filter fun k => (alook np k).isSome)
      ⊆ np.map Prod.fst := by
    intro k hk
    exact (alook_isSome_iff np k).mp (List.mem_filter.mp hk).2
  have hFnd : ((modPaths mods).filter fun k => (alook np k).isSome).Nodup :=
    hA.filter _
  constructor
  · intro mods' h
    have hcond : foundCount mods np rg isBuf = np.length := by
      by_contra hc
      simp [setAllParameters, hc] at h
    have hmods' : mods' = mods.map fun m =>
        (m.1, (setterCall np rg isBuf (pfxDot m.1) m.2).1) := by
      simp only [setAllParameters, hcond, if_pos, Option.some.injEq] at h
      exact h.symm
    refine ⟨hcond, ?_⟩
    intro kv hkv
    have hkK : kv.1 ∈ np.map Prod.fst := List.mem_map_of_mem Prod.fst hkv
    have hlen : (np.map Prod.fst).length
        ≤ ((modPaths mods).filter fun k => (alook np k).isSome).length := by
      rw [List.length_map, ← foundCount_eq mods np rg isBuf, hcond]
    have hperm := (List.subperm_of_subset hFnd hFsub).perm_of_length_le hlen
    have hkF : kv.1 ∈ (modPaths mods).filter fun k => (alook np k).isSome :=
      hperm.mem_iff.mpr hkK
    have hkA : kv.1 ∈ modPaths mods := (List.mem_filter.mp hkF).1
    obtain ⟨e, he, hek⟩ := List.mem_map.mp hkA
    have halook : alook np kv.1 = some kv.2 :=
      alook_of_mem_of_nodup np hK kv.1 kv.2 hkv
    rw [hmods', mapped_modEntries]
    have hmap := List.mem_map_of_mem
      (fun e : PName × Tensor =>
        match alook np e.1 with
        | none => e
        | some nv => (e.1, adjustV rg isBuf nv)) he
    simp only [hek, halook] at hmap
    exact hmap
  · rintro ⟨k0, hk0K, hk0A⟩
    have hsub' : ((modPaths mods).filter fun k => (alook np k).isSome)
        ⊆ (np.map Prod.fst).erase k0 := by
      intro k hk
      have hkA : k ∈ modPaths mods := (List.mem_filter.mp hk).1
      have hne : k ≠ k0 := fun he => hk0A (he ▸ hkA)
      exact (List.mem_erase_of_ne hne).mpr (hFsub hk)
    have hle := (List.subperm_of_subset hFnd hsub').length_le
    have herase : ((np.map Prod.fst).erase k0).length + 1
        = (np.map Prod.fst).length := List.length_erase_add_one hk0K
    have hlt : foundCount mods np rg isBuf < np.length := by
      rw [foundCount_eq, ← List.length_map np Prod.fst]
      omega
    simp [setAllParameters, Nat.ne_of_lt hlt]

/-- Witness for `setAllParameters_spec`: a one-module tree with slot "w"
and a supplied value named "x" with no matching slot fails the assert. -/
theorem setAllParameters_spec_witness :
    setAllParameters [("", [("w", ⟨0, 1, false, true, false⟩)])]
      [("x", ⟨1, 2, false, false, false⟩)] false false = none :=
  (setAllParameters_spec [("", [("w", ⟨0, 1, false, true, false⟩)])]
    [("x", ⟨1, 2, false, false, false⟩)] false false
    (by simp [modPaths, modEntries, pfxDot])
    (by simp)).2
    ⟨"x", by simp, by simp [modPaths, modEntries, pfxDot]⟩

end Optim
